import Mathlib

/-!
Verification of the spatio-temporal cluster-based permutation test engine
described by the repository's specification, together with a statement-level
embedding of the example script
`examples/stats/plot_cluster_stats_spatio_temporal.py`.

The repository itself contains only the example script; the engine it invokes
(`mne.stats.spatio_temporal_cluster_1samp_test` and its supporting components)
is external to the source tree.  The engine components below are therefore
modelled from the specification's words, while the script embedding is taken
directly from the source file.
-/

attribute [local semireducible] Rat.add Rat.mul Rat.sub Rat.inv

/-! ### Engine data model -/

/-- Modelled from the spec: the clustering threshold, which "may be
`infinite`, meaning no point qualifies".  A finite threshold carries a
rational bound. -/
inductive Threshold where
  | finite (t : ℚ)
  | infinite
deriving DecidableEq

/-- Modelled from the spec (missing component `ConnectivityGraph` of
`mne.stats`): "set of spatial node IDs (0..N-1) plus an edge set (undirected,
no self-loops, symmetric)". -/
structure ConnectivityGraph where
  numNodes : Nat
  edges : List (Nat × Nat)
deriving DecidableEq

/-- Modelled from the spec: adjacency of two node IDs in a
`ConnectivityGraph`; undirected (either orientation of an edge counts),
irreflexive, and restricted to in-range node IDs. -/
def ConnectivityGraph.adjB (g : ConnectivityGraph) (a b : Nat) : Bool :=
  a ≠ b && a < g.numNodes && b < g.numNodes &&
    (g.edges.contains (a, b) || g.edges.contains (b, a))

/-- Modelled from the spec: a `StatisticMap` is a "dense array aligned with
the node space, one real value per node"; out-of-range reads default to 0. -/
def statAt (stat : List ℚ) (n : Nat) : ℚ := stat.getD n 0

/-- Modelled from the spec: a node is active for a given excursion sign
("sign-aware: a cluster contains only one sign of excursion") when its
statistic has that sign and its magnitude exceeds the threshold; with an
infinite threshold "no point qualifies". -/
def activeSign (th : Threshold) (sign : Bool) (x : ℚ) : Bool :=
  match th with
  | .infinite => false
  | .finite t => (if sign then 0 < x else x < 0) && t < |x|

/-- Modelled from the spec: adjacency of the subgraph induced by the active
nodes of one sign ("connected-components labeling ... over the subgraph
induced by active nodes of that sign"). -/
def indAdj (g : ConnectivityGraph) (stat : List ℚ) (th : Threshold) (sign : Bool)
    (a b : Nat) : Bool :=
  g.adjB a b && activeSign th sign (statAt stat a) && activeSign th sign (statAt stat b)

lemma ConnectivityGraph.adjB_symm (g : ConnectivityGraph) (a b : Nat) :
    g.adjB a b = g.adjB b a := by
  simp only [adjB]
  by_cases hab : a = b
  · subst hab; simp
  · simp only [ne_eq, hab, not_false_eq_true, Ne.symm hab]
    by_cases h1 : a < g.numNodes <;> by_cases h2 : b < g.numNodes <;>
      simp [h1, h2, Bool.or_comm]

lemma indAdj_symm (g : ConnectivityGraph) (stat : List ℚ) (th : Threshold) (sign : Bool)
    (a b : Nat) : indAdj g stat th sign a b = indAdj g stat th sign b a := by
  simp only [indAdj, g.adjB_symm a b, Bool.and_assoc]
  rw [Bool.and_comm (activeSign th sign (statAt stat a))]

lemma indAdj_irrefl (g : ConnectivityGraph) (stat : List ℚ) (th : Threshold) (sign : Bool)
    (a : Nat) : indAdj g stat th sign a a = false := by
  simp [indAdj, ConnectivityGraph.adjB]

/-- Modelled from the spec: the subgraph of the connectivity graph induced by
the active nodes of one excursion sign, as a `SimpleGraph` on the node ID
space. -/
def clusterGraph (g : ConnectivityGraph) (stat : List ℚ) (th : Threshold) (sign : Bool) :
    SimpleGraph (Fin g.numNodes) where
  Adj a b := indAdj g stat th sign a.val b.val = true
  symm := by
    intro a b h
    rw [indAdj_symm] at h
    exact h
  loopless := by
    intro a h
    rw [indAdj_irrefl] at h
    exact Bool.false_ne_true h

instance (g : ConnectivityGraph) (stat : List ℚ) (th : Threshold) (sign : Bool) :
    DecidableRel (clusterGraph g stat th sign).Adj :=
  fun _ _ => inferInstanceAs (Decidable (_ = true))

/-- Modelled from the spec: decidable connectivity inside the induced active
subgraph (the flood-fill / union-find of the Clusterer reaches `b` from
`a`). -/
def reachB (g : ConnectivityGraph) (stat : List ℚ) (th : Threshold) (sign : Bool)
    (a b : Fin g.numNodes) : Bool :=
  decide ((clusterGraph g stat th sign).Reachable a b)

/-- Modelled from the spec: a `Cluster` has a "member node set, summary
statistic, sign". -/
structure Cluster where
  members : List Nat
  summary : ℚ
  sign : Bool
deriving DecidableEq

/-- Modelled from the spec: the default summary statistic, "sum of
|statistic_map[node]| for node in cluster (mass)". -/
def clusterMass (stat : List ℚ) (members : List Nat) : ℚ :=
  (members.map (fun n => |statAt stat n|)).sum

/-- Modelled from the spec: the member list of the connected component of a
node inside the induced active subgraph, listed in ascending node order. -/
def componentOf (g : ConnectivityGraph) (stat : List ℚ) (th : Threshold) (sign : Bool)
    (a : Fin g.numNodes) : List Nat :=
  ((List.finRange g.numNodes).filter (fun b => reachB g stat th sign a b)).map Fin.val

/-- Modelled from the spec: a node is the representative of its cluster when
it is active and is the smallest node ID of its component (the flood-fill
seeds each component once, from its smallest member). -/
def isRep (g : ConnectivityGraph) (stat : List ℚ) (th : Threshold) (sign : Bool)
    (a : Fin g.numNodes) : Bool :=
  activeSign th sign (statAt stat a.val) &&
    (List.finRange g.numNodes).all (fun b => !reachB g stat th sign a b || a.val ≤ b.val)

/-- Modelled from the spec: all clusters of one excursion sign, one per
connected component of the induced active subgraph, built from each
component's representative. -/
def clustersOfSign (g : ConnectivityGraph) (stat : List ℚ) (th : Threshold) (sign : Bool) :
    List Cluster :=
  ((List.finRange g.numNodes).filter (fun a => isRep g stat th sign a)).map
    (fun a => ⟨componentOf g stat th sign a,
               clusterMass stat (componentOf g stat th sign a), sign⟩)

/-- The minimum node ID of a cluster (members are kept in ascending order,
so it is the head of the member list). -/
def Cluster.minId (c : Cluster) : Nat := c.members.headD 0

/-- Modelled from the spec: the output order of the Clusterer, "sorted by
descending summary statistic, ties broken by ascending minimum node ID". -/
def Cluster.le (c d : Cluster) : Prop :=
  d.summary < c.summary ∨ (d.summary = c.summary ∧ c.minId ≤ d.minId)

instance : DecidableRel Cluster.le := by
  intro c d
  unfold Cluster.le
  infer_instance

instance : IsTotal Cluster Cluster.le where
  total c d := by
    unfold Cluster.le
    rcases lt_trichotomy c.summary d.summary with h | h | h
    · exact .inr (.inl h)
    · rcases Nat.le_total c.minId d.minId with h2 | h2
      · exact .inl (.inr ⟨h.symm, h2⟩)
      · exact .inr (.inr ⟨h, h2⟩)
    · exact .inl (.inl h)

instance : IsTrans Cluster Cluster.le where
  trans c d e := by
    unfold Cluster.le
    rintro (h1 | ⟨h1, h1m⟩) (h2 | ⟨h2, h2m⟩)
    · exact .inl (h2.trans h1)
    · exact .inl (h2 ▸ h1)
    · exact .inl (h1 ▸ h2)
    · exact .inr ⟨h2.trans h1, h1m.trans h2m⟩

/-- Modelled from the spec (missing operation `Clusterer.find_clusters` of
`mne.stats`): partition the active nodes per sign into connected components
of the induced subgraph and return them "sorted by descending summary
statistic, ties broken by ascending minimum node ID". -/
def find_clusters (g : ConnectivityGraph) (stat : List ℚ) (th : Threshold) : List Cluster :=
  List.insertionSort Cluster.le
    (clustersOfSign g stat th true ++ clustersOfSign g stat th false)

/-! ### SignificanceEvaluator -/

/-- Modelled from the spec: a `ClusterResult` pairs an observed cluster with
its empirical p-value. -/
structure ClusterResult where
  cluster : Cluster
  pval : ℚ
deriving DecidableEq

/-- Modelled from the spec: the empirical p-value,
"(1 + count of H0 values ≥ observed) / (1 + permutation count)". -/
def pvalue (H0 : List ℚ) (s : ℚ) : ℚ :=
  (1 + ((H0.filter (fun h => s ≤ h)).length : ℚ)) / (1 + (H0.length : ℚ))

/-- Modelled from the spec (missing operation `SignificanceEvaluator.evaluate`
of `mne.stats`): produce one `ClusterResult` per observed cluster, in the
Clusterer's order. -/
def evaluate (observed : List Cluster) (H0 : List ℚ) : List ClusterResult :=
  observed.map (fun c => ⟨c, pvalue H0 c.summary⟩)

/-! ### PermutationEngine -/

/-- Modelled from the spec: the observation tensor, an "ordered sequence of
samples, each a 2D array [space-index × time-index]", stored per sample as a
flat node-indexed list of length `nSpace * nTime`. -/
structure Observations where
  nSpace : Nat
  nTime : Nat
  samples : List (List ℚ)
deriving DecidableEq

/-- Modelled from the spec: the failure taxonomy of the PermutationEngine
(`ShapeMismatchError`, `InsufficientPermutationsError`). -/
inductive PermError where
  | shapeMismatch
  | insufficientPermutations
deriving DecidableEq

/-- Modelled from the spec: result of a permutation run, the observed
clusters together with the null distribution H0. -/
structure RunResult where
  observed : List Cluster
  H0 : List ℚ
deriving DecidableEq

instance {ε α : Type} [DecidableEq ε] [DecidableEq α] :
    DecidableEq (Except ε α) := fun a b =>
  match a, b with
  | .error e, .error f =>
    if h : e = f then isTrue (by rw [h])
    else isFalse (by intro hh; injection hh with h2; exact h h2)
  | .error _, .ok _ => isFalse (fun hh => Except.noConfusion hh)
  | .ok _, .error _ => isFalse (fun hh => Except.noConfusion hh)
  | .ok x, .ok y =>
    if h : x = y then isTrue (by rw [h])
    else isFalse (by intro hh; injection hh with h2; exact h h2)

/-- Sign flip of one sample. -/
def negSample (s : List ℚ) : List ℚ := s.map (fun x => -x)

/-- Modelled from the spec: a one-sample permutation "flips the sign of a
random subset of samples (coin-flip per sample)"; the flip pattern is the
list of coins. -/
def applyFlips : List Bool → List (List ℚ) → List (List ℚ)
  | _, [] => []
  | [], ss => ss
  | f :: fs, s :: ss => (if f then negSample s else s) :: applyFlips fs ss

/-- Modelled from the spec: the identity arrangement, "no flips". -/
def identityFlips (n : Nat) : List Bool := List.replicate n false

/-- Modelled from the spec: per-permutation H0 entry, "max(summary statistic
over all clusters of either sign, or 0 if no clusters)". -/
def maxSummary (cs : List Cluster) : ℚ := (cs.map Cluster.summary).foldr max 0

/-- Modelled from the spec: one permutation's contribution to H0: flip,
score, cluster, take the maximum summary. -/
def permMaxStat (g : ConnectivityGraph) (scoring : List (List ℚ) → List ℚ)
    (th : Threshold) (samples : List (List ℚ)) (flips : List Bool) : ℚ :=
  maxSummary (find_clusters g (scoring (applyFlips flips samples)) th)

/-- Modelled from the spec (missing operation `PermutationEngine.run` of
`mne.stats`): check the observations' shape against the graph's node count
(`ShapeMismatchError` on mismatch), require at least one and at most
`2^n_samples` permutations (`InsufficientPermutationsError` otherwise, the
documented policy choice), then return the observed clusters and the null
distribution of per-permutation maxima.  The permutation schedule `perms`
(one flip pattern per permutation, index 0 the identity) is passed in
explicitly, standing for the spec's seedable random source. -/
def PermutationEngine.run (g : ConnectivityGraph) (scoring : List (List ℚ) → List ℚ)
    (th : Threshold) (obs : Observations) (perms : List (List Bool)) :
    Except PermError RunResult :=
  if obs.nSpace * obs.nTime ≠ g.numNodes then .error .shapeMismatch
  else if perms.length = 0 ∨ 2 ^ obs.samples.length < perms.length then
    .error .insufficientPermutations
  else
    .ok ⟨find_clusters g (scoring obs.samples) th,
         perms.map (permMaxStat g scoring th obs.samples)⟩

/-! ### Paths of active same-sign nodes -/

/-- A path in the claim's sense: a nonempty list of nodes, each active for
the given excursion sign, consecutive nodes adjacent in the connectivity
graph. -/
def ActivePath (g : ConnectivityGraph) (stat : List ℚ) (th : Threshold) (sign : Bool) :
    List Nat → Prop
  | [] => False
  | [a] => activeSign th sign (statAt stat a) = true
  | a :: b :: rest => activeSign th sign (statAt stat a) = true ∧ g.adjB a b = true ∧
      ActivePath g stat th sign (b :: rest)

/-- `a` and `b` are joined by a path of above-threshold, same-sign,
pairwise-adjacent nodes. -/
def ConnectsVia (g : ConnectivityGraph) (stat : List ℚ) (th : Threshold) (sign : Bool)
    (a b : Nat) : Prop :=
  ∃ p : List Nat, ActivePath g stat th sign p ∧ p.head? = some a ∧ p.getLast? = some b

/-! ### Statement-level embedding of the example script
`examples/stats/plot_cluster_stats_spatio_temporal.py` -/

/-- One top-level Python statement of the script, abstracted to what it
binds, deletes, uses, raises, or whether its opening parenthesis is never
closed. -/
inductive PyStmt where
  | printStmt (uses : List String)
  | fromImport (names : List String)
  | assign (targets : List String) (uses : List String)
  | exprCall (uses : List String)
  | forLoop (binds : List String) (uses : List String)
  | delStmt (name : String)
  | raiseStmt (exc : String) (msg : String)
  | unclosedAssignCall (targets : List String) (fn : String)
deriving DecidableEq

/-- A statement of the script together with the source line it starts on. -/
structure ScriptLine where
  line : Nat
  stmt : PyStmt
deriving DecidableEq

set_option maxHeartbeats 1000000 in
/-- The top-level statements of
`examples/stats/plot_cluster_stats_spatio_temporal.py`, in source order,
each with the source line it starts on.  `assign ts us` binds the names `ts`
using the names `us`; `forLoop bs us` is a for-statement whose header and
body bind `bs` and use `us`; `unclosedAssignCall ts fn` is an assignment
whose right-hand call to `fn` opens a parenthesis that is never closed. -/
def scriptStmts : List ScriptLine := [
  ⟨17, .printStmt []⟩,
  ⟨19, .fromImport ["mne"]⟩,
  ⟨20, .fromImport ["fiff", "spatio_temporal_tris_connectivity", "compute_morph_matrix",
                    "grade_to_tris", "equalize_epoch_counts", "SourceEstimate"]⟩,
  ⟨22, .fromImport ["spatio_temporal_cluster_1samp_test"]⟩,
  ⟨23, .fromImport ["apply_inverse", "read_inverse_operator"]⟩,
  ⟨24, .fromImport ["sample"]⟩,
  ⟨25, .fromImport ["op"]⟩,
  ⟨26, .fromImport ["np"]⟩,
  ⟨27, .fromImport ["randn"]⟩,
  ⟨28, .fromImport ["spstats"]⟩,
  ⟨32, .assign ["data_path"] ["sample"]⟩,
  ⟨33, .assign ["raw_fname"] ["data_path"]⟩,
  ⟨34, .assign ["event_fname"] ["data_path"]⟩,
  ⟨35, .assign ["tmin"] []⟩,
  ⟨36, .assign ["tmax"] []⟩,
  ⟨39, .assign ["raw"] ["fiff", "raw_fname"]⟩,
  ⟨40, .assign ["events"] ["mne", "event_fname"]⟩,
  ⟨44, .assign ["picks"] ["fiff", "raw"]⟩,
  ⟨45, .assign ["event_id"] []⟩,
  ⟨46, .assign ["reject"] []⟩,
  ⟨47, .assign ["epochs1"] ["mne", "raw", "events", "event_id", "tmin", "tmax",
                            "picks", "reject"]⟩,
  ⟨50, .assign ["event_id"] []⟩,
  ⟨51, .assign ["epochs2"] ["mne", "raw", "events", "event_id", "tmin", "tmax",
                            "picks", "reject"]⟩,
  ⟨56, .exprCall ["equalize_epoch_counts", "epochs1", "epochs2"]⟩,
  ⟨61, .assign ["fname_inv"] ["data_path"]⟩,
  ⟨62, .assign ["snr"] []⟩,
  ⟨63, .assign ["lambda2"] ["snr"]⟩,
  ⟨64, .assign ["method"] []⟩,
  ⟨65, .assign ["inverse_operator"] ["read_inverse_operator", "fname_inv"]⟩,
  ⟨66, .assign ["sample_vertices"] ["inverse_operator"]⟩,
  ⟨69, .assign ["evoked1"] ["epochs1"]⟩,
  ⟨70, .exprCall ["evoked1"]⟩,
  ⟨71, .assign ["condition1"] ["apply_inverse", "evoked1", "inverse_operator",
                               "lambda2", "method"]⟩,
  ⟨72, .assign ["evoked2"] ["epochs2"]⟩,
  ⟨73, .exprCall ["evoked2"]⟩,
  ⟨74, .assign ["condition2"] ["apply_inverse", "evoked2", "inverse_operator",
                               "lambda2", "method"]⟩,
  ⟨77, .exprCall ["condition1"]⟩,
  ⟨78, .exprCall ["condition2"]⟩,
  ⟨79, .assign ["tmin"] ["condition1"]⟩,
  ⟨80, .assign ["tstep"] ["condition1"]⟩,
  ⟨81, .assign ["times"] ["condition1"]⟩,
  ⟨89, .assign ["condition1"] ["condition1"]⟩,
  ⟨90, .assign ["condition2"] ["condition2"]⟩,
  ⟨91, .assign ["n_simulate"] []⟩,
  ⟨92, .assign ["noise_level"] []⟩,
  ⟨93, .assign ["X1"] ["randn", "condition1", "n_simulate", "noise_level"]⟩,
  ⟨94, .assign ["X2"] ["randn", "condition2", "n_simulate", "noise_level"]⟩,
  ⟨95, .forLoop ["ri"] ["n_simulate", "X1", "X2", "condition1", "condition2"]⟩,
  ⟨98, .delStmt "condition1"⟩,
  ⟨99, .delStmt "condition2"⟩,
  ⟨107, .assign ["fsave_vertices"] ["np"]⟩,
  ⟨108, .unclosedAssignCall ["morph_mat"] "compute_morph_matrix"⟩,
  ⟨112, .assign ["X1"] ["np", "X1"]⟩,
  ⟨113, .assign ["X2"] ["np", "X2"]⟩,
  ⟨114, .assign ["X1"] ["np", "morph_mat", "X1"]⟩,
  ⟨115, .assign ["X2"] ["np", "morph_mat", "X2"]⟩,
  ⟨116, .raiseStmt "ValueError" "me"⟩,
  ⟨119, .assign ["X"] ["X1", "X2"]⟩,
  ⟨120, .delStmt "X1"⟩,
  ⟨121, .delStmt "X2"⟩,
  ⟨128, .assign ["connectivity"] ["spatio_temporal_tris_connectivity", "grade_to_tris"]⟩,
  ⟨132, .assign ["X"] ["np", "X"]⟩,
  ⟨136, .assign ["threshold"] ["np"]⟩,
  ⟨137, .assign ["T_obs", "clusters", "cluster_p_values", "H0"]
                ["spatio_temporal_cluster_1samp_test", "X", "connectivity", "threshold"]⟩,
  ⟨142, .assign ["stc"] ["SourceEstimate", "T_obs", "fsave_vertices", "tmin", "tstep"]⟩,
  ⟨143, .raiseStmt "ValueError" "me"⟩,
  ⟨146, .assign ["times"] ["epochs1"]⟩,
  ⟨147, .fromImport ["pl"]⟩,
  ⟨148, .exprCall ["pl"]⟩,
  ⟨149, .exprCall ["pl"]⟩,
  ⟨150, .exprCall ["pl", "channel"]⟩,
  ⟨151, .exprCall ["pl", "times", "condition1", "condition2"]⟩,
  ⟨153, .exprCall ["pl"]⟩,
  ⟨154, .exprCall ["pl"]⟩,
  ⟨155, .exprCall ["pl"]⟩,
  ⟨156, .forLoop ["i_c", "c", "h"] ["clusters", "cluster_p_values", "pl", "times"]⟩,
  ⟨163, .assign ["hf"] ["pl", "times", "T_obs"]⟩,
  ⟨164, .exprCall ["pl", "h"]⟩,
  ⟨165, .exprCall ["pl"]⟩,
  ⟨166, .exprCall ["pl"]⟩,
  ⟨167, .exprCall ["pl"]⟩]

/-- Raw per-line parenthesis counts (opens, closes) of source lines 108-116
of the script, the region from the start of the `compute_morph_matrix`
assignment through the first `raise` (line 111 is a comment whose two
parentheses cancel). -/
def morphRegionParens : List (Nat × Nat × Nat) :=
  [(108, 1, 0), (109, 0, 0), (110, 1, 1), (111, 1, 1), (112, 1, 1),
   (113, 1, 1), (114, 1, 1), (115, 1, 1), (116, 1, 1)]

/-- Cumulative parenthesis balance (opens minus closes) after the first `k`
entries of a per-line count list. -/
def parenBalance (entries : List (Nat × Nat × Nat)) : Int :=
  entries.foldl (fun acc e => acc + (e.2.1 : Int) - (e.2.2 : Int)) 0

/-- Does a statement parse on its own?  A statement whose opening
parenthesis is never closed is a syntax error. -/
def stmtParses : PyStmt → Bool
  | .unclosedAssignCall _ _ => false
  | _ => true

/-- A Python file is compiled as a whole before any statement runs; it
parses only if every statement does. -/
def scriptParses (s : List ScriptLine) : Bool := s.all (fun l => stmtParses l.stmt)

/-- Does a statement unconditionally raise? -/
def stmtRaises : PyStmt → Bool
  | .raiseStmt _ _ => true
  | _ => false

/-- Lines executed by straight-line execution of a statement list: each
statement's line in order, stopping at (and including) the first statement
that raises. -/
def execLinesFrom : List ScriptLine → List Nat
  | [] => []
  | l :: rest => if stmtRaises l.stmt then [l.line] else l.line :: execLinesFrom rest

/-- Lines of the script that execute on an attempted run: none when the file
fails to parse, otherwise straight-line execution up to the first raise. -/
def executedLines (s : List ScriptLine) : List Nat :=
  if scriptParses s then execLinesFrom s else []

/-- Effect of one statement on the set of bound names (Python namespace):
imports, assignments and for-loops bind, `del` unbinds. -/
def applyStmt (env : List String) : PyStmt → List String
  | .fromImport ns => ns ++ env
  | .assign ts _ => ts ++ env
  | .forLoop bs _ => bs ++ env
  | .delStmt n => env.filter (fun m => m ≠ n)
  | _ => env

/-- Names bound just before the statement starting at `line`, assuming
straight-line execution of every earlier statement. -/
def envBefore (s : List ScriptLine) (line : Nat) : List String :=
  (s.filter (fun l => l.line < line)).foldl (fun env l => applyStmt env l.stmt) []

/-- Names used by a statement. -/
def stmtUses : PyStmt → List String
  | .printStmt us => us
  | .fromImport _ => []
  | .assign _ us => us
  | .exprCall us => us
  | .forLoop _ us => us
  | .delStmt n => [n]
  | .raiseStmt _ _ => []
  | .unclosedAssignCall _ _ => []

/-! ### Concrete scenario inputs (spec §8, Scenarios A and B) -/

/-- The 5-node line graph 0-1-2-3-4 of the spec's scenarios. -/
def lineGraph5 : ConnectivityGraph := ⟨5, [(0, 1), (1, 2), (2, 3), (3, 4)]⟩

/-- The statistic map of Scenario B. -/
def statScenarioB : List ℚ := [5, -5, 5, 0, 0]

/-! ### Basic facts about activity and adjacency -/

lemma activeSign_disjoint {th : Threshold} {x : ℚ}
    (hp : activeSign th true x = true) (hn : activeSign th false x = true) : False := by
  cases th with
  | infinite => simp [activeSign] at hp
  | finite t =>
    simp only [activeSign, Bool.and_eq_true, decide_eq_true_eq, if_true, if_false] at hp hn
    have h1 : 0 < x := by simpa using hp.1
    have h2 : x < 0 := by simpa using hn.1
    exact absurd (h1.trans h2) (lt_irrefl 0)

lemma activeSign_eq_of_both {th : Threshold} {x : ℚ} {s1 s2 : Bool}
    (h1 : activeSign th s1 x = true) (h2 : activeSign th s2 x = true) : s1 = s2 := by
  cases s1 <;> cases s2
  case false.false => rfl
  case false.true => exact (activeSign_disjoint h2 h1).elim
  case true.false => exact (activeSign_disjoint h1 h2).elim
  case true.true => rfl

lemma activeSign_value {th : Threshold} {x : ℚ} {s : Bool}
    (h : activeSign th s x = true) : if s then 0 < x else x < 0 := by
  cases th with
  | infinite => simp [activeSign] at h
  | finite t =>
    cases s <;> simp only [activeSign, Bool.and_eq_true, decide_eq_true_eq] at h <;>
      simpa using h.1

lemma adjB_spec {g : ConnectivityGraph} {a b : Nat} (h : g.adjB a b = true) :
    a ≠ b ∧ a < g.numNodes ∧ b < g.numNodes := by
  simp only [ConnectivityGraph.adjB, Bool.and_eq_true, decide_eq_true_eq] at h
  exact ⟨h.1.1.1, h.1.1.2, h.1.2⟩

lemma indAdj_true_elim {g : ConnectivityGraph} {stat : List ℚ} {th : Threshold}
    {sign : Bool} {a b : Nat} (h : indAdj g stat th sign a b = true) :
    g.adjB a b = true ∧ activeSign th sign (statAt stat a) = true ∧
      activeSign th sign (statAt stat b) = true := by
  simpa [indAdj, Bool.and_eq_true, and_assoc] using h

/-! ### Walks, reachability and active paths -/

lemma walk_active {g : ConnectivityGraph} {stat : List ℚ} {th : Threshold} {sign : Bool} :
    ∀ {a b : Fin g.numNodes}, (clusterGraph g stat th sign).Walk a b →
    activeSign th sign (statAt stat a.val) = true →
    activeSign th sign (statAt stat b.val) = true
  | _, _, .nil, ha => ha
  | _, _, .cons hadj p, _ => walk_active p (indAdj_true_elim hadj).2.2

lemma reachable_active {g : ConnectivityGraph} {stat : List ℚ} {th : Threshold}
    {sign : Bool} {a b : Fin g.numNodes}
    (h : (clusterGraph g stat th sign).Reachable a b)
    (ha : activeSign th sign (statAt stat a.val) = true) :
    activeSign th sign (statAt stat b.val) = true :=
  h.elim (fun w => walk_active w ha)

lemma reachB_iff {g : ConnectivityGraph} {stat : List ℚ} {th : Threshold} {sign : Bool}
    (a b : Fin g.numNodes) :
    reachB g stat th sign a b = true ↔ (clusterGraph g stat th sign).Reachable a b := by
  simp [reachB]

lemma mem_componentOf {g : ConnectivityGraph} {stat : List ℚ} {th : Threshold}
    {sign : Bool} {a : Fin g.numNodes} {n : Nat} :
    n ∈ componentOf g stat th sign a ↔
      ∃ h : n < g.numNodes, (clusterGraph g stat th sign).Reachable a ⟨n, h⟩ := by
  simp only [componentOf, List.mem_map, List.mem_filter]
  constructor
  · rintro ⟨b, ⟨-, hb⟩, rfl⟩
    exact ⟨b.isLt, (reachB_iff a b).mp hb⟩
  · rintro ⟨h, hr⟩
    exact ⟨⟨n, h⟩, ⟨List.mem_finRange _, (reachB_iff _ _).mpr hr⟩, rfl⟩

lemma self_mem_componentOf {g : ConnectivityGraph} {stat : List ℚ} {th : Threshold}
    {sign : Bool} (a : Fin g.numNodes) :
    a.val ∈ componentOf g stat th sign a :=
  mem_componentOf.mpr ⟨a.isLt, by rw [Fin.eta]⟩

lemma isRep_active {g : ConnectivityGraph} {stat : List ℚ} {th : Threshold}
    {sign : Bool} {a : Fin g.numNodes} (h : isRep g stat th sign a = true) :
    activeSign th sign (statAt stat a.val) = true := by
  simp only [isRep, Bool.and_eq_true] at h
  exact h.1

lemma isRep_min {g : ConnectivityGraph} {stat : List ℚ} {th : Threshold}
    {sign : Bool} {a b : Fin g.numNodes} (h : isRep g stat th sign a = true)
    (hr : (clusterGraph g stat th sign).Reachable a b) : a.val ≤ b.val := by
  simp only [isRep, Bool.and_eq_true, List.all_eq_true] at h
  have h2 := h.2 b (List.mem_finRange b)
  have h3 : reachB g stat th sign a b = true := (reachB_iff a b).mpr hr
  rw [h3] at h2
  simpa using h2

lemma isRep_unique {g : ConnectivityGraph} {stat : List ℚ} {th : Threshold}
    {sign : Bool} {a b : Fin g.numNodes} (ha : isRep g stat th sign a = true)
    (hb : isRep g stat th sign b = true)
    (hr : (clusterGraph g stat th sign).Reachable a b) : a = b :=
  Fin.ext (Nat.le_antisymm (isRep_min ha hr) (isRep_min hb hr.symm))

lemma mem_clustersOfSign {g : ConnectivityGraph} {stat : List ℚ} {th : Threshold}
    {sign : Bool} {c : Cluster} :
    c ∈ clustersOfSign g stat th sign ↔
      ∃ a : Fin g.numNodes, isRep g stat th sign a = true ∧
        c = ⟨componentOf g stat th sign a,
             clusterMass stat (componentOf g stat th sign a), sign⟩ := by
  simp only [clustersOfSign, List.mem_map, List.mem_filter]
  constructor
  · rintro ⟨a, ⟨-, ha⟩, rfl⟩
    exact ⟨a, ha, rfl⟩
  · rintro ⟨a, ha, rfl⟩
    exact ⟨a, ⟨List.mem_finRange _, ha⟩, rfl⟩

lemma mem_find_clusters {g : ConnectivityGraph} {stat : List ℚ} {th : Threshold}
    {c : Cluster} :
    c ∈ find_clusters g stat th ↔
      c ∈ clustersOfSign g stat th true ∨ c ∈ clustersOfSign g stat th false := by
  unfold find_clusters
  rw [(List.perm_insertionSort _ _).mem_iff, List.mem_append]

/-! ### Component ordering and representatives -/

lemma componentOf_sorted {g : ConnectivityGraph} {stat : List ℚ} {th : Threshold}
    {sign : Bool} (a : Fin g.numNodes) :
    (componentOf g stat th sign a).Pairwise (· < ·) := by
  unfold componentOf
  rw [List.pairwise_map]
  exact ((List.pairwise_lt_finRange g.numNodes).filter _).imp (fun h => h)

lemma headD_eq_of_min {l : List Nat} {x : Nat} (hs : l.Pairwise (· < ·))
    (hx : x ∈ l) (hmin : ∀ y ∈ l, x ≤ y) : l.headD 0 = x := by
  cases l with
  | nil => cases hx
  | cons a l =>
    simp only [List.headD_cons]
    rcases List.mem_cons.mp hx with rfl | hx'
    · rfl
    · have h1 := hmin a (List.mem_cons_self a l)
      have h2 := (List.pairwise_cons.mp hs).1 x hx'
      omega

lemma componentOf_headD {g : ConnectivityGraph} {stat : List ℚ} {th : Threshold}
    {sign : Bool} {a : Fin g.numNodes} (ha : isRep g stat th sign a = true) :
    (componentOf g stat th sign a).headD 0 = a.val := by
  apply headD_eq_of_min (componentOf_sorted a) (self_mem_componentOf a)
  intro y hy
  obtain ⟨hlt, hr⟩ := mem_componentOf.mp hy
  exact isRep_min ha hr

lemma cluster_minId_spec {g : ConnectivityGraph} {stat : List ℚ} {th : Threshold}
    {sign : Bool} {c : Cluster} (hc : c ∈ clustersOfSign g stat th sign) :
    c.minId ∈ c.members ∧ (∀ m ∈ c.members, c.minId ≤ m) ∧
      activeSign th sign (statAt stat c.minId) = true := by
  obtain ⟨a, ha, rfl⟩ := mem_clustersOfSign.mp hc
  have hhead : Cluster.minId
      ⟨componentOf g stat th sign a, clusterMass stat (componentOf g stat th sign a), sign⟩ =
      a.val := componentOf_headD ha
  rw [hhead]
  refine ⟨self_mem_componentOf a, ?_, ?_⟩
  · intro m hm
    obtain ⟨hlt, hr⟩ := mem_componentOf.mp hm
    exact isRep_min ha hr
  · exact isRep_active ha

set_option maxHeartbeats 1000000 in
lemma mem_members_active {g : ConnectivityGraph} {stat : List ℚ} {th : Threshold}
    {sign : Bool} {c : Cluster} {n : Nat} (hc : c ∈ clustersOfSign g stat th sign)
    (hn : n ∈ c.members) : activeSign th sign (statAt stat n) = true := by
  obtain ⟨a, ha, rfl⟩ := mem_clustersOfSign.mp hc
  obtain ⟨hlt, hr⟩ := mem_componentOf.mp hn
  exact reachable_active hr (isRep_active ha)

lemma mem_members_lt {g : ConnectivityGraph} {stat : List ℚ} {th : Threshold}
    {sign : Bool} {c : Cluster} {n : Nat} (hc : c ∈ clustersOfSign g stat th sign)
    (hn : n ∈ c.members) : n < g.numNodes := by
  obtain ⟨a, ha, rfl⟩ := mem_clustersOfSign.mp hc
  obtain ⟨hlt, -⟩ := mem_componentOf.mp hn
  exact hlt

lemma cluster_sign_of_mem {g : ConnectivityGraph} {stat : List ℚ} {th : Threshold}
    {sign : Bool} {c : Cluster} (hc : c ∈ clustersOfSign g stat th sign) :
    c.sign = sign := by
  obtain ⟨a, ha, rfl⟩ := mem_clustersOfSign.mp hc
  rfl

/-! ### Active paths versus walks in the induced subgraph -/

lemma activePath_head_active {g : ConnectivityGraph} {stat : List ℚ} {th : Threshold}
    {sign : Bool} {x : Nat} {xs : List Nat}
    (h : ActivePath g stat th sign (x :: xs)) :
    activeSign th sign (statAt stat x) = true := by
  cases xs with
  | nil => exact h
  | cons y ys => exact h.1

lemma activePath_cons {g : ConnectivityGraph} {stat : List ℚ} {th : Threshold}
    {sign : Bool} {u x : Nat} {xs : List Nat}
    (hu : activeSign th sign (statAt stat u) = true) (hadj : g.adjB u x = true)
    (h : ActivePath g stat th sign (x :: xs)) :
    ActivePath g stat th sign (u :: x :: xs) :=
  ⟨hu, hadj, h⟩

lemma connects_of_walk {g : ConnectivityGraph} {stat : List ℚ} {th : Threshold}
    {sign : Bool} : ∀ {u v : Fin g.numNodes},
    (clusterGraph g stat th sign).Walk u v →
    activeSign th sign (statAt stat u.val) = true →
    ConnectsVia g stat th sign u.val v.val
  | u, _, .nil, hu => ⟨[u.val], hu, rfl, rfl⟩
  | u, v, .cons hadj p, hu => by
    obtain ⟨q, hq, hqh, hql⟩ := connects_of_walk p (indAdj_true_elim hadj).2.2
    cases q with
    | nil => simp at hqh
    | cons x xs =>
      have hx : x = _ := (Option.some.injEq .. ▸ hqh : x = _)
      refine ⟨u.val :: x :: xs, ?_, rfl, ?_⟩
      · refine activePath_cons hu ?_ hq
        rw [hx]
        exact (indAdj_true_elim hadj).1
      · rw [List.getLast?_cons_cons]
        exact hql

lemma reachable_of_activePath {g : ConnectivityGraph} {stat : List ℚ} {th : Threshold}
    {sign : Bool} : ∀ {p : List Nat} {a b : Nat},
    ActivePath g stat th sign p → p.head? = some a → p.getLast? = some b →
    ∀ (ha : a < g.numNodes) (hb : b < g.numNodes),
    (clusterGraph g stat th sign).Reachable ⟨a, ha⟩ ⟨b, hb⟩
  | [x], a, b, hp, hh, hl, ha, hb => by
    have hax : a = x := by simpa using hh.symm
    have hbx : b = x := by simpa using hl.symm
    subst hax
    subst hbx
    exact .refl _
  | x :: y :: ys, a, b, hp, hh, hl, ha, hb => by
    have hax : a = x := by simpa using hh.symm
    subst hax
    obtain ⟨hx, hadj, hrest⟩ := hp
    obtain ⟨-, -, hy⟩ := adjB_spec hadj
    have hy_active := activePath_head_active hrest
    have hstep : (clusterGraph g stat th sign).Adj ⟨a, ha⟩ ⟨y, hy⟩ := by
      show indAdj g stat th sign a y = true
      simp [indAdj, hadj, hx, hy_active]
    have htail : (clusterGraph g stat th sign).Reachable ⟨y, hy⟩ ⟨b, hb⟩ :=
      reachable_of_activePath hrest rfl (List.getLast?_cons_cons ▸ hl) hy hb
    exact hstep.reachable.trans htail

/-! ### Clusters of a common component coincide; distinct clusters are disjoint -/

set_option maxHeartbeats 1000000 in
lemma cluster_eq_of_reachable {g : ConnectivityGraph} {stat : List ℚ} {th : Threshold}
    {sign : Bool} {c d : Cluster} {x y : Fin g.numNodes}
    (hc : c ∈ clustersOfSign g stat th sign) (hd : d ∈ clustersOfSign g stat th sign)
    (hxc : x.val ∈ c.members) (hyd : y.val ∈ d.members)
    (hxy : (clusterGraph g stat th sign).Reachable x y) : c = d := by
  obtain ⟨a, ha, rfl⟩ := mem_clustersOfSign.mp hc
  obtain ⟨b, hb, rfl⟩ := mem_clustersOfSign.mp hd
  obtain ⟨hx, hax⟩ := mem_componentOf.mp hxc
  obtain ⟨hy, hby⟩ := mem_componentOf.mp hyd
  have hax' : (clusterGraph g stat th sign).Reachable a x := (Fin.eta x hx) ▸ hax
  have hby' : (clusterGraph g stat th sign).Reachable b y := (Fin.eta y hy) ▸ hby
  have hab : (clusterGraph g stat th sign).Reachable a b :=
    (hax'.trans hxy).trans hby'.symm
  rw [isRep_unique ha hb hab]

set_option maxHeartbeats 1000000 in
lemma same_sign_common_mem {g : ConnectivityGraph} {stat : List ℚ} {th : Threshold}
    {sign : Bool} {c d : Cluster} {n : Nat}
    (hc : c ∈ clustersOfSign g stat th sign) (hd : d ∈ clustersOfSign g stat th sign)
    (hnc : n ∈ c.members) (hnd : n ∈ d.members) : c = d := by
  have hn := mem_members_lt hc hnc
  exact cluster_eq_of_reachable (x := ⟨n, hn⟩) (y := ⟨n, hn⟩) hc hd hnc hnd (.refl _)

lemma clusters_disjoint_of_ne {g : ConnectivityGraph} {stat : List ℚ} {th : Threshold}
    {c d : Cluster} (hc : c ∈ find_clusters g stat th) (hd : d ∈ find_clusters g stat th)
    (hne : c ≠ d) {n : Nat} (hnc : n ∈ c.members) (hnd : n ∈ d.members) : False := by
  rcases mem_find_clusters.mp hc with hc' | hc' <;>
    rcases mem_find_clusters.mp hd with hd' | hd'
  · exact hne (same_sign_common_mem hc' hd' hnc hnd)
  · exact activeSign_disjoint (mem_members_active hc' hnc) (mem_members_active hd' hnd)
  · exact activeSign_disjoint (mem_members_active hd' hnd) (mem_members_active hc' hnc)
  · exact hne (same_sign_common_mem hc' hd' hnc hnd)

/-! ### Pairwise distinctness of minimum node IDs -/

set_option maxHeartbeats 1000000 in
lemma clustersOfSign_minId_pairwise {g : ConnectivityGraph} {stat : List ℚ}
    {th : Threshold} {sign : Bool} :
    (clustersOfSign g stat th sign).Pairwise (fun c d => c.minId < d.minId) := by
  unfold clustersOfSign
  rw [List.pairwise_map]
  have hpw : ((List.finRange g.numNodes).filter
      (fun a => isRep g stat th sign a)).Pairwise (· < ·) :=
    (List.pairwise_lt_finRange g.numNodes).filter _
  refine List.Pairwise.imp_of_mem ?_ hpw
  intro a b hma hmb hab
  have ha := (List.mem_filter.mp hma).2
  have hb := (List.mem_filter.mp hmb).2
  have e1 : Cluster.minId ⟨componentOf g stat th sign a,
      clusterMass stat (componentOf g stat th sign a), sign⟩ = a.val :=
    componentOf_headD ha
  have e2 : Cluster.minId ⟨componentOf g stat th sign b,
      clusterMass stat (componentOf g stat th sign b), sign⟩ = b.val :=
    componentOf_headD hb
  rw [e1, e2]
  exact hab

lemma minId_ne_cross {g : ConnectivityGraph} {stat : List ℚ} {th : Threshold}
    {c d : Cluster} (hc : c ∈ clustersOfSign g stat th true)
    (hd : d ∈ clustersOfSign g stat th false) : c.minId ≠ d.minId := by
  intro he
  have h1 := (cluster_minId_spec hc).2.2
  have h2 := (cluster_minId_spec hd).2.2
  rw [he] at h1
  exact activeSign_disjoint h1 h2

lemma concat_minId_pairwise {g : ConnectivityGraph} {stat : List ℚ} {th : Threshold} :
    (clustersOfSign g stat th true ++ clustersOfSign g stat th false).Pairwise
      (fun c d => c.minId ≠ d.minId) := by
  rw [List.pairwise_append]
  exact ⟨clustersOfSign_minId_pairwise.imp (fun h => Nat.ne_of_lt h),
         clustersOfSign_minId_pairwise.imp (fun h => Nat.ne_of_lt h),
         fun c hc d hd => minId_ne_cross hc hd⟩

lemma find_clusters_minId_pairwise {g : ConnectivityGraph} {stat : List ℚ}
    {th : Threshold} :
    (find_clusters g stat th).Pairwise (fun c d => c.minId ≠ d.minId) := by
  unfold find_clusters
  have hperm := List.perm_insertionSort Cluster.le
    (clustersOfSign g stat th true ++ clustersOfSign g stat th false)
  exact (hperm.pairwise_iff (fun h => Ne.symm h)).mpr concat_minId_pairwise

lemma find_clusters_pairwise_disjoint {g : ConnectivityGraph} {stat : List ℚ}
    {th : Threshold} :
    (find_clusters g stat th).Pairwise (fun c d => ∀ n ∈ c.members, n ∉ d.members) := by
  refine List.Pairwise.imp_of_mem ?_ find_clusters_minId_pairwise
  intro c d hc hd hne n hnc hnd
  have hcd : c ≠ d := fun he => hne (he ▸ rfl)
  exact clusters_disjoint_of_ne hc hd hcd hnc hnd

/-! ### Maxima, flips and p-values -/

lemma le_maxSummary : ∀ {cs : List Cluster} {c : Cluster}, c ∈ cs →
    c.summary ≤ maxSummary cs
  | d :: ds, c, hc => by
    simp only [maxSummary, List.map_cons, List.foldr_cons]
    rcases List.mem_cons.mp hc with rfl | h
    · exact le_max_left _ _
    · exact le_trans (by simpa [maxSummary] using le_maxSummary h) (le_max_right _ _)

lemma applyFlips_replicate_false : ∀ (n : Nat) (ss : List (List ℚ)),
    applyFlips (List.replicate n false) ss = ss
  | 0, [] => rfl
  | 0, _ :: _ => rfl
  | _ + 1, [] => rfl
  | n + 1, s :: ss => by
    show s :: applyFlips (List.replicate n false) ss = s :: ss
    rw [applyFlips_replicate_false n ss]

lemma permMaxStat_identity {g : ConnectivityGraph} {scoring : List (List ℚ) → List ℚ}
    {th : Threshold} {samples : List (List ℚ)} :
    permMaxStat g scoring th samples (identityFlips samples.length) =
      maxSummary (find_clusters g (scoring samples) th) := by
  unfold permMaxStat identityFlips
  rw [applyFlips_replicate_false]

lemma pvalue_pos (H0 : List ℚ) (s : ℚ) : 0 < pvalue H0 s := by
  unfold pvalue
  apply div_pos
  · positivity
  · positivity

lemma pvalue_ge_two_div {H0 : List ℚ} {s h0 : ℚ} (hm : h0 ∈ H0) (hs : s ≤ h0) :
    2 / (1 + (H0.length : ℚ)) ≤ pvalue H0 s := by
  unfold pvalue
  have hd : (0 : ℚ) < 1 + (H0.length : ℚ) := by positivity
  have hmem : h0 ∈ H0.filter (fun h => s ≤ h) :=
    List.mem_filter.mpr ⟨hm, by simpa using hs⟩
  have hlen : 1 ≤ (H0.filter (fun h => s ≤ h)).length :=
    List.length_pos_of_mem hmem
  rw [div_le_div_iff hd hd]
  have hcast : (1 : ℚ) ≤ ((H0.filter (fun h => s ≤ h)).length : ℚ) := by
    exact_mod_cast hlen
  nlinarith

lemma one_div_le_two_div {n : ℕ} (hn : 1 ≤ n) :
    1 / (n : ℚ) ≤ 2 / (1 + (n : ℚ)) := by
  have h1 : (0 : ℚ) < n := by exact_mod_cast hn
  have h2 : (0 : ℚ) < 1 + (n : ℚ) := by positivity
  rw [div_le_div_iff h1 h2]
  have h3 : (1 : ℚ) ≤ n := by exact_mod_cast hn
  nlinarith

/-! ### The permutation run -/

lemma run_ok {g : ConnectivityGraph} {scoring : List (List ℚ) → List ℚ}
    {th : Threshold} {obs : Observations} {perms : List (List Bool)}
    (hshape : obs.nSpace * obs.nTime = g.numNodes)
    (h1 : perms.length ≠ 0) (h2 : perms.length ≤ 2 ^ obs.samples.length) :
    PermutationEngine.run g scoring th obs perms =
      .ok ⟨find_clusters g (scoring obs.samples) th,
           perms.map (permMaxStat g scoring th obs.samples)⟩ := by
  unfold PermutationEngine.run
  have hc2 : ¬(perms.length = 0 ∨ 2 ^ obs.samples.length < perms.length) := by
    push_neg
    exact ⟨h1, h2⟩
  rw [if_neg (fun h => h hshape), if_neg hc2]

lemma clustersOfSign_infinite {g : ConnectivityGraph} {stat : List ℚ} {sign : Bool} :
    clustersOfSign g stat .infinite sign = [] := by
  simp [clustersOfSign, isRep, activeSign]

lemma find_clusters_infinite (g : ConnectivityGraph) (stat : List ℚ) :
    find_clusters g stat .infinite = [] := by
  unfold find_clusters
  rw [clustersOfSign_infinite, clustersOfSign_infinite]
  rfl

/-! ### Connectivity of members within and across clusters -/

lemma activePath_getLast_active {g : ConnectivityGraph} {stat : List ℚ} {th : Threshold}
    {sign : Bool} : ∀ {p : List Nat} {b : Nat},
    ActivePath g stat th sign p → p.getLast? = some b →
    activeSign th sign (statAt stat b) = true
  | [x], b, hp, hl => by
    have hb : b = x := by simpa using hl.symm
    subst hb
    exact hp
  | x :: y :: ys, b, hp, hl =>
    activePath_getLast_active hp.2.2 (List.getLast?_cons_cons ▸ hl)

lemma connectsVia_active {g : ConnectivityGraph} {stat : List ℚ} {th : Threshold}
    {sign : Bool} {a b : Nat} (hp : ConnectsVia g stat th sign a b) :
    activeSign th sign (statAt stat a) = true ∧
      activeSign th sign (statAt stat b) = true := by
  obtain ⟨p, hpath, hh, hl⟩ := hp
  cases p with
  | nil => simp at hh
  | cons x xs =>
    have hax : a = x := by simpa using hh.symm
    subst hax
    exact ⟨activePath_head_active hpath, activePath_getLast_active hpath hl⟩

lemma connectsVia_reachable {g : ConnectivityGraph} {stat : List ℚ} {th : Threshold}
    {sign : Bool} {a b : Nat} (hp : ConnectsVia g stat th sign a b)
    (ha : a < g.numNodes) (hb : b < g.numNodes) :
    (clusterGraph g stat th sign).Reachable ⟨a, ha⟩ ⟨b, hb⟩ := by
  obtain ⟨p, hpath, hh, hl⟩ := hp
  exact reachable_of_activePath hpath hh hl ha hb

set_option maxHeartbeats 1000000 in
lemma same_cluster_connects {g : ConnectivityGraph} {stat : List ℚ} {th : Threshold}
    {sign : Bool} {c : Cluster} {a b : Nat}
    (hc : c ∈ clustersOfSign g stat th sign) (hac : a ∈ c.members)
    (hbc : b ∈ c.members) : ConnectsVia g stat th sign a b := by
  obtain ⟨r, hr, rfl⟩ := mem_clustersOfSign.mp hc
  obtain ⟨ha, hra⟩ := mem_componentOf.mp hac
  obtain ⟨hb, hrb⟩ := mem_componentOf.mp hbc
  have hab : (clusterGraph g stat th sign).Reachable ⟨a, ha⟩ ⟨b, hb⟩ := hra.symm.trans hrb
  have hact : activeSign th sign (statAt stat a) = true :=
    reachable_active hra (isRep_active hr)
  obtain ⟨w⟩ := hab
  exact connects_of_walk w hact

lemma no_connects_of_ne {g : ConnectivityGraph} {stat : List ℚ} {th : Threshold}
    {c d : Cluster} (hc : c ∈ find_clusters g stat th)
    (hd : d ∈ find_clusters g stat th) (hne : c ≠ d) {a b : Nat}
    (hac : a ∈ c.members) (hbd : b ∈ d.members) {sign : Bool}
    (hp : ConnectsVia g stat th sign a b) : False := by
  have hconn := connectsVia_active hp
  have ha := hconn.1
  have hb := hconn.2
  rcases mem_find_clusters.mp hc with hc' | hc' <;>
    rcases mem_find_clusters.mp hd with hd' | hd'
  case inl.inl =>
    have hs1 : sign = true := activeSign_eq_of_both ha (mem_members_active hc' hac)
    subst hs1
    have hlta := mem_members_lt hc' hac
    have hltb := mem_members_lt hd' hbd
    exact hne (cluster_eq_of_reachable (x := ⟨a, hlta⟩) (y := ⟨b, hltb⟩) hc' hd'
      hac hbd (connectsVia_reachable hp hlta hltb))
  case inl.inr =>
    have hs1 : sign = true := activeSign_eq_of_both ha (mem_members_active hc' hac)
    have hs2 : sign = false := activeSign_eq_of_both hb (mem_members_active hd' hbd)
    rw [hs1] at hs2
    exact Bool.noConfusion hs2
  case inr.inl =>
    have hs1 : sign = false := activeSign_eq_of_both ha (mem_members_active hc' hac)
    have hs2 : sign = true := activeSign_eq_of_both hb (mem_members_active hd' hbd)
    rw [hs1] at hs2
    exact Bool.false_ne_true hs2
  case inr.inr =>
    have hs1 : sign = false := activeSign_eq_of_both ha (mem_members_active hc' hac)
    subst hs1
    have hlta := mem_members_lt hc' hac
    have hltb := mem_members_lt hd' hbd
    exact hne (cluster_eq_of_reachable (x := ⟨a, hlta⟩) (y := ⟨b, hltb⟩) hc' hd'
      hac hbd (connectsVia_reachable hp hlta hltb))

/-! ### Sorting facts for the Clusterer output -/

lemma find_clusters_sorted (g : ConnectivityGraph) (stat : List ℚ) (th : Threshold) :
    List.Sorted Cluster.le (find_clusters g stat th) :=
  List.sorted_insertionSort Cluster.le _

lemma find_clusters_strict_pairwise {g : ConnectivityGraph} {stat : List ℚ}
    {th : Threshold} :
    (find_clusters g stat th).Pairwise
      (fun c d => d.summary < c.summary ∨
        (d.summary = c.summary ∧ c.minId < d.minId)) := by
  have h1 : (find_clusters g stat th).Pairwise Cluster.le := find_clusters_sorted g stat th
  have h2 := @find_clusters_minId_pairwise g stat th
  refine (h1.and h2).imp ?_
  rintro c d ⟨hle, hne⟩
  rcases hle with h | ⟨he, hm⟩
  · exact .inl h
  · exact .inr ⟨he, lt_of_le_of_ne hm hne⟩

lemma pvalue_singleton_of_le {m s : ℚ} (h : s ≤ m) : pvalue [m] s = 1 := by
  have hf : ([m] : List ℚ).filter (fun x => s ≤ x) = [m] := by
    simp [List.filter, h]
  rw [pvalue, hf]
  norm_num

/-! ### Claim theorems -/

/-- C1: for every observed cluster with summary statistic `s` and every null
distribution H0, the p-value returned by `evaluate` equals
`(1 + #{h in H0 : h ≥ s}) / (1 + |H0|)`, and the returned sequence of
`ClusterResult` preserves the Clusterer's ordering of the observed
clusters. -/
theorem C1_evaluate_formula_and_order (observed : List Cluster) (H0 : List ℚ) :
    (evaluate observed H0).map ClusterResult.cluster = observed ∧
    ∀ r ∈ evaluate observed H0,
      r.pval = (1 + ((H0.countP (fun h => r.cluster.summary ≤ h)) : ℚ)) /
               (1 + (H0.length : ℚ)) := by
  constructor
  · show List.map ClusterResult.cluster
        (List.map (fun c => ⟨c, pvalue H0 c.summary⟩) observed) = observed
    rw [List.map_map]
    exact List.map_id observed
  · intro r hr
    simp only [evaluate, List.mem_map] at hr
    obtain ⟨c, hc, rfl⟩ := hr
    simp only [pvalue]
    rw [List.countP_eq_length_filter]

/-- C2: whenever the identity arrangement is the first permutation (so its
maximum is included in H0), every returned p-value is at least
`1 / n_permutations` and no returned p-value is zero. -/
theorem C2_min_pvalue_bound (g : ConnectivityGraph) (scoring : List (List ℚ) → List ℚ)
    (th : Threshold) (obs : Observations) (perms : List (List Bool)) (r : RunResult)
    (hid : perms.head? = some (identityFlips obs.samples.length))
    (hrun : PermutationEngine.run g scoring th obs perms = .ok r) :
    ∀ res ∈ evaluate r.observed r.H0,
      1 / (perms.length : ℚ) ≤ res.pval ∧ 0 < res.pval := by
  unfold PermutationEngine.run at hrun
  split_ifs at hrun with h1 h2
  injection hrun with hinj
  subst hinj
  intro res hres
  simp only [evaluate, List.mem_map] at hres
  obtain ⟨c, hc, rfl⟩ := hres
  have hidmem : identityFlips obs.samples.length ∈ perms :=
    List.mem_of_mem_head? (Option.mem_def.mpr hid)
  have hmax_mem : maxSummary (find_clusters g (scoring obs.samples) th) ∈
      perms.map (permMaxStat g scoring th obs.samples) := by
    have hm := List.mem_map_of_mem (permMaxStat g scoring th obs.samples) hidmem
    rwa [permMaxStat_identity] at hm
  have hlen1 : 1 ≤ perms.length := by
    cases perms with
    | nil => simp at hid
    | cons p ps => simp
  constructor
  · have hge := pvalue_ge_two_div hmax_mem (le_maxSummary hc)
    rw [List.length_map] at hge
    exact le_trans (one_div_le_two_div hlen1) hge
  · exact pvalue_pos _ _

/-- C4: with a single permutation (the identity), H0 has exactly one entry,
the observed maximum cluster summary statistic, and every observed cluster
receives p-value exactly 1. -/
theorem C4_single_permutation (g : ConnectivityGraph) (scoring : List (List ℚ) → List ℚ)
    (th : Threshold) (obs : Observations)
    (hshape : obs.nSpace * obs.nTime = g.numNodes) :
    PermutationEngine.run g scoring th obs [identityFlips obs.samples.length] =
      .ok ⟨find_clusters g (scoring obs.samples) th,
           [maxSummary (find_clusters g (scoring obs.samples) th)]⟩ ∧
    ∀ res ∈ evaluate (find_clusters g (scoring obs.samples) th)
        [maxSummary (find_clusters g (scoring obs.samples) th)],
      res.pval = 1 := by
  constructor
  · rw [run_ok hshape (by simp) (by simpa using Nat.one_le_two_pow)]
    simp [permMaxStat_identity]
  · intro res hres
    simp only [evaluate, List.mem_map] at hres
    obtain ⟨c, hc, rfl⟩ := hres
    exact pvalue_singleton_of_le (le_maxSummary hc)

/-- C5: with an infinite threshold the run succeeds without error,
`find_clusters` returns the empty sequence, the observed cluster list is
empty, and every permutation contributes 0 to H0. -/
theorem C5_infinite_threshold (g : ConnectivityGraph) (scoring : List (List ℚ) → List ℚ)
    (obs : Observations) (perms : List (List Bool))
    (hshape : obs.nSpace * obs.nTime = g.numNodes)
    (h1 : perms.length ≠ 0) (h2 : perms.length ≤ 2 ^ obs.samples.length) :
    (∀ stat : List ℚ, find_clusters g stat .infinite = []) ∧
    PermutationEngine.run g scoring .infinite obs perms =
      .ok ⟨[], List.replicate perms.length 0⟩ ∧
    ∀ h0 ∈ List.replicate perms.length (0 : ℚ), h0 = 0 := by
  refine ⟨find_clusters_infinite g, ?_, ?_⟩
  · rw [run_ok hshape h1 h2]
    have hmap : perms.map (permMaxStat g scoring .infinite obs.samples) =
        List.replicate perms.length 0 := by
      apply List.eq_replicate.mpr
      refine ⟨List.length_map _ _, ?_⟩
      intro b hb
      obtain ⟨f, hf, rfl⟩ := List.mem_map.mp hb
      unfold permMaxStat
      rw [find_clusters_infinite]
      rfl
    rw [hmap, find_clusters_infinite]
  · intro h0 hh0
    exact List.eq_of_mem_replicate hh0

/-- C9: `PermutationEngine.run` fails with `shapeMismatch` exactly when the
observations' space/time shape does not match the graph's node count; in
particular a graph built with one time slice is rejected against
observations with more than one time point. -/
theorem C9_shape_mismatch_iff (g : ConnectivityGraph) (scoring : List (List ℚ) → List ℚ)
    (th : Threshold) (obs : Observations) (perms : List (List Bool)) :
    (PermutationEngine.run g scoring th obs perms = .error .shapeMismatch ↔
      obs.nSpace * obs.nTime ≠ g.numNodes) ∧
    (∀ gS : ConnectivityGraph, ∀ obsS : Observations,
      gS.numNodes = obsS.nSpace * 1 → 0 < obsS.nSpace → 1 < obsS.nTime →
      PermutationEngine.run gS scoring th obsS perms = .error .shapeMismatch) := by
  constructor
  · unfold PermutationEngine.run
    split_ifs with hm hp
    · constructor
      · intro _
        exact hm
      · intro _
        rfl
    · constructor
      · intro he
        simp at he
      · intro hne
        exact absurd hne hm
    · constructor
      · intro he
        simp at he
      · intro hne
        exact absurd hne hm
  · intro gS obsS hnodes hpos htime
    unfold PermutationEngine.run
    rw [if_pos]
    intro he
    have h3 : obsS.nSpace * obsS.nTime = obsS.nSpace * 1 := he.trans hnodes
    have h4 := Nat.eq_of_mul_eq_mul_left hpos h3
    omega

/-- C6: two nodes of one returned cluster are joined by a path of
above-threshold, same-sign, pairwise-adjacent nodes; nodes of different
returned clusters admit no such path; and on the 5-node line graph with
statistic [5,-5,5,0,0] and threshold 1 the clusters are exactly the
singletons {0} (positive), {1} (negative) and {2} (positive). -/
theorem C6_connectivity_correct (g : ConnectivityGraph) (stat : List ℚ) (th : Threshold) :
    (∀ c ∈ find_clusters g stat th, ∀ a ∈ c.members, ∀ b ∈ c.members,
      ConnectsVia g stat th c.sign a b) ∧
    (∀ c ∈ find_clusters g stat th, ∀ d ∈ find_clusters g stat th, c ≠ d →
      ∀ a ∈ c.members, ∀ b ∈ d.members, ¬ ∃ sign, ConnectsVia g stat th sign a b) ∧
    find_clusters lineGraph5 statScenarioB (.finite 1) =
      [⟨[0], 5, true⟩, ⟨[1], 5, false⟩, ⟨[2], 5, true⟩] := by
  refine ⟨?_, ?_, by decide⟩
  · intro c hc a ha b hb
    rcases mem_find_clusters.mp hc with hc' | hc' <;>
      · rw [cluster_sign_of_mem hc']
        exact same_cluster_connects hc' ha hb
  · rintro c hc d hd hne a ha b hb ⟨sign, hp⟩
    exact no_connects_of_ne hc hd hne ha hb hp

/-- C7: every node belongs to at most one returned cluster (pairwise
disjoint member sets), and no returned cluster mixes positive-excursion and
negative-excursion nodes. -/
theorem C7_partition_and_sign (g : ConnectivityGraph) (stat : List ℚ) (th : Threshold) :
    (find_clusters g stat th).Pairwise (fun c d => ∀ n ∈ c.members, n ∉ d.members) ∧
    ∀ c ∈ find_clusters g stat th, ∀ n ∈ c.members,
      if c.sign then 0 < statAt stat n else statAt stat n < 0 := by
  refine ⟨find_clusters_pairwise_disjoint, ?_⟩
  intro c hc n hn
  rcases mem_find_clusters.mp hc with hc' | hc' <;>
    · rw [cluster_sign_of_mem hc']
      exact activeSign_value (mem_members_active hc' hn)

/-- C8: `find_clusters` is deterministic, and its output is sorted by
descending summary statistic with ties broken by ascending minimum node ID
(`minId` being genuinely the minimum member of each cluster). -/
theorem C8_deterministic_sorted (g : ConnectivityGraph) (stat : List ℚ) (th : Threshold) :
    find_clusters g stat th = find_clusters g stat th ∧
    List.Sorted Cluster.le (find_clusters g stat th) ∧
    (find_clusters g stat th).Pairwise
      (fun c d => d.summary < c.summary ∨
        (d.summary = c.summary ∧ c.minId < d.minId)) ∧
    ∀ c ∈ find_clusters g stat th, c.minId ∈ c.members ∧ ∀ m ∈ c.members, c.minId ≤ m := by
  refine ⟨rfl, find_clusters_sorted g stat th, find_clusters_strict_pairwise, ?_⟩
  intro c hc
  rcases mem_find_clusters.mp hc with hc' | hc' <;>
    exact ⟨(cluster_minId_spec hc').1, (cluster_minId_spec hc').2.1⟩

/-- C3: the script never reaches the `spatio_temporal_cluster_1samp_test`
call at line 137: the file does not parse (the `compute_morph_matrix` call
opened at line 108 is never closed), so no line executes at all; and even
under straight-line execution the unconditional `raise ValueError` at line
116 stops execution before line 137, so `T_obs`, `clusters`,
`cluster_p_values` and `H0` are never produced. -/
theorem C3_test_call_never_reached :
    scriptParses scriptStmts = false ∧
    executedLines scriptStmts = [] ∧
    (⟨108, .unclosedAssignCall ["morph_mat"] "compute_morph_matrix"⟩ : ScriptLine) ∈
      scriptStmts ∧
    parenBalance morphRegionParens = 1 ∧
    (∀ k ∈ List.range 9, 1 ≤ parenBalance (morphRegionParens.take (k + 1))) ∧
    (⟨116, .raiseStmt "ValueError" "me"⟩ : ScriptLine) ∈ scriptStmts ∧
    (∀ l ∈ execLinesFrom scriptStmts, l ≤ 116) ∧
    137 ∉ execLinesFrom scriptStmts ∧ 137 ∉ executedLines scriptStmts := by
  decide

/-- C10: the plotting section (lines 146-167) is unreachable: nothing past
the unconditional `raise` at line 143 can execute even if the earlier raise
at line 116 is removed, and were it reached it would use the never-bound
name `channel` at line 150 and the names `condition1`/`condition2` at line
151 that are deleted at lines 98-99. -/
theorem C10_plot_section_unreachable :
    (⟨143, .raiseStmt "ValueError" "me"⟩ : ScriptLine) ∈ scriptStmts ∧
    (∀ l ∈ executedLines scriptStmts, l < 146) ∧
    (∀ l ∈ execLinesFrom scriptStmts, l < 146) ∧
    (∀ l ∈ execLinesFrom (scriptStmts.filter (fun s => s.line ≠ 116)), l ≤ 143) ∧
    (⟨150, .exprCall ["pl", "channel"]⟩ : ScriptLine) ∈ scriptStmts ∧
    "channel" ∉ envBefore scriptStmts 150 ∧
    (⟨151, .exprCall ["pl", "times", "condition1", "condition2"]⟩ : ScriptLine) ∈
      scriptStmts ∧
    "condition1" ∉ envBefore scriptStmts 151 ∧
    "condition2" ∉ envBefore scriptStmts 151 ∧
    (⟨98, .delStmt "condition1"⟩ : ScriptLine) ∈ scriptStmts ∧
    (⟨99, .delStmt "condition2"⟩ : ScriptLine) ∈ scriptStmts := by
  decide

/-! ### Concrete instances used by the witnesses -/

/-- Concrete observation tensor: one sample over 5 spatial nodes and one
time point. -/
def obsW : Observations := ⟨5, 1, [[5, -5, 5, 0, 0]]⟩

/-- Concrete scoring function: the statistic map is the first sample. -/
def scoringW : List (List ℚ) → List ℚ := fun ss => ss.headD []

/-! ### Witnesses -/

theorem C1_evaluate_formula_and_order_witness :
    (evaluate [⟨[0], 5, true⟩] [3, 7]).map ClusterResult.cluster = [⟨[0], 5, true⟩] ∧
    ∀ r ∈ evaluate [⟨[0], 5, true⟩] [3, 7],
      r.pval = (1 + ((([3, 7] : List ℚ).countP (fun h => r.cluster.summary ≤ h)) : ℚ)) /
               (1 + (([3, 7] : List ℚ).length : ℚ)) :=
  C1_evaluate_formula_and_order [⟨[0], 5, true⟩] [3, 7]

theorem C2_min_pvalue_bound_witness :
    1 / (([identityFlips 1] : List (List Bool)).length : ℚ) ≤
      pvalue [5] (Cluster.summary ⟨[0], 5, true⟩) ∧
      0 < pvalue [5] (Cluster.summary ⟨[0], 5, true⟩) :=
  C2_min_pvalue_bound lineGraph5 scoringW (.finite 1) obsW [identityFlips 1]
    ⟨[⟨[0], 5, true⟩, ⟨[1], 5, false⟩, ⟨[2], 5, true⟩], [5]⟩ (by decide) (by decide)
    ⟨⟨[0], 5, true⟩, pvalue [5] (Cluster.summary ⟨[0], 5, true⟩)⟩ (by decide)

theorem C4_single_permutation_witness :
    PermutationEngine.run lineGraph5 scoringW (.finite 1) obsW
        [identityFlips obsW.samples.length] =
      .ok ⟨find_clusters lineGraph5 (scoringW obsW.samples) (.finite 1),
           [maxSummary (find_clusters lineGraph5 (scoringW obsW.samples) (.finite 1))]⟩ ∧
    ∀ res ∈ evaluate (find_clusters lineGraph5 (scoringW obsW.samples) (.finite 1))
        [maxSummary (find_clusters lineGraph5 (scoringW obsW.samples) (.finite 1))],
      res.pval = 1 :=
  C4_single_permutation lineGraph5 scoringW (.finite 1) obsW (by decide)

theorem C5_infinite_threshold_witness :
    (∀ stat : List ℚ, find_clusters lineGraph5 stat .infinite = []) ∧
    PermutationEngine.run lineGraph5 scoringW .infinite obsW [identityFlips 1] =
      .ok ⟨[], List.replicate ([identityFlips 1] : List (List Bool)).length 0⟩ ∧
    ∀ h0 ∈ List.replicate ([identityFlips 1] : List (List Bool)).length (0 : ℚ),
      h0 = 0 :=
  C5_infinite_threshold lineGraph5 scoringW obsW [identityFlips 1]
    (by decide) (by decide) (by decide)

theorem C9_shape_mismatch_iff_witness :
    PermutationEngine.run lineGraph5 scoringW (.finite 1)
        ⟨5, 2, [[5, -5, 5, 0, 0]]⟩ [identityFlips 1] = .error .shapeMismatch :=
  (C9_shape_mismatch_iff lineGraph5 scoringW (.finite 1) ⟨5, 2, [[5, -5, 5, 0, 0]]⟩
    [identityFlips 1]).2 lineGraph5 ⟨5, 2, [[5, -5, 5, 0, 0]]⟩
    (by decide) (by decide) (by decide)

theorem C6_connectivity_correct_witness :
    ConnectsVia lineGraph5 statScenarioB (.finite 1)
      (Cluster.sign ⟨[0], 5, true⟩) 0 0 :=
  (C6_connectivity_correct lineGraph5 statScenarioB (.finite 1)).1
    ⟨[0], 5, true⟩ (by decide) 0 (by decide) 0 (by decide)

theorem C7_partition_and_sign_witness :
    (find_clusters lineGraph5 statScenarioB (.finite 1)).Pairwise
      (fun c d => ∀ n ∈ c.members, n ∉ d.members) ∧
    (if (⟨[1], 5, false⟩ : Cluster).sign then 0 < statAt statScenarioB 1
     else statAt statScenarioB 1 < 0) :=
  ⟨(C7_partition_and_sign lineGraph5 statScenarioB (.finite 1)).1,
   (C7_partition_and_sign lineGraph5 statScenarioB (.finite 1)).2
     ⟨[1], 5, false⟩ (by decide) 1 (by decide)⟩

theorem C8_deterministic_sorted_witness :
    List.Sorted Cluster.le (find_clusters lineGraph5 statScenarioB (.finite 1)) ∧
    ((⟨[0], 5, true⟩ : Cluster).minId ∈ (⟨[0], 5, true⟩ : Cluster).members ∧
      ∀ m ∈ (⟨[0], 5, true⟩ : Cluster).members, (⟨[0], 5, true⟩ : Cluster).minId ≤ m) :=
  ⟨(C8_deterministic_sorted lineGraph5 statScenarioB (.finite 1)).2.1,
   (C8_deterministic_sorted lineGraph5 statScenarioB (.finite 1)).2.2.2
     ⟨[0], 5, true⟩ (by decide)⟩
